import Mathlib

/-!
Shallow embedding of the pattern-scan-and-patch engine of
`emmission.py` (class `MEDC17EmissionHandler`).

Bytes are modelled as `List Nat`; a Python slice `data[a:b]` (with
non-negative bounds) is `(data.drop a).take (b - a)`, which also models
Python's silent truncation at the end of the buffer.  The per-rule scan
loop `for i in range(len(data) - len(sig))` is modelled by `scanLoop`
with fuel `data.length - sig.length` (Nat subtraction models Python's
empty `range` on a negative argument).  In the source, a signature hit
whose stock check fails has no effect and the loop continues, so the
loop is equivalent to finding the first index where both the signature
slice and the stock slice match; `break` fires only after a patch.
The change record stores the match offset as a `Nat`; the source
formats it with `hex(i)`, an injective presentation detail.
-/

/-- One entry of `self.patterns`: a named rule with signature, stock and
replacement bytes. -/
structure Rule where
  name : String
  signature : List Nat
  stock : List Nat
  off : List Nat
deriving DecidableEq, Repr

/-- Python slice `data[a:b]` for non-negative `a ≤ b`: the elements with
index in `[a, b)`, truncated at the end of the list. -/
def pySlice (data : List Nat) (a b : Nat) : List Nat :=
  (data.drop a).take (b - a)

/-- Python ASCII lowercasing of one character, as used by `str.lower`
on the rule names (which are ASCII). -/
def asciiLower (c : Char) : Char :=
  if c.toNat ≥ 65 ∧ c.toNat ≤ 90 then Char.ofNat (c.toNat + 32) else c

/-- Model of `pattern_name.lower()` for the ASCII rule names. -/
def pyLower (s : String) : String :=
  String.mk (s.data.map asciiLower)

/-- The test `data[i:i+len(sig)] == sig` at line 100 of the source. -/
def sigMatchAt (data : List Nat) (r : Rule) (i : Nat) : Bool :=
  pySlice data i (i + r.signature.length) == r.signature

/-- The test `data[stock_start:stock_end] == stock` at line 104 of the
source, with `stock_start = i + len(sig)`. -/
def stockMatchAt (data : List Nat) (r : Rule) (i : Nat) : Bool :=
  pySlice data (i + r.signature.length)
    (i + r.signature.length + r.stock.length) == r.stock

/-- Both tests of the loop body combined.  In the source a signature hit
with a failed stock check has no effect and the loop moves on, so the
loop body patches exactly at the first index where this holds. -/
def bothMatch (data : List Nat) (r : Rule) (i : Nat) : Bool :=
  sigMatchAt data r i && stockMatchAt data r i

/-- The scan loop: `n` iterations left, current index `i`; returns the
first index satisfying `p`, if any. -/
def scanLoop (p : Nat → Bool) : Nat → Nat → Option Nat
  | 0, _ => none
  | n + 1, i => if p i then some i else scanLoop p n (i + 1)

/-- The offset patched by `for i in range(len(data) - len(sig))`: the
first `i` in `[0, len(data) - len(sig))` whose signature and stock
slices both match. -/
def findPatchIndex (data : List Nat) (r : Rule) : Option Nat :=
  scanLoop (bothMatch data r) (data.length - r.signature.length) 0

/-- The slice assignment `data[stock_start:stock_end] = off` at line 106
of the source: `data[:stock_start] + off + data[stock_end:]`. -/
def patchAt (data : List Nat) (r : Rule) (i : Nat) : List Nat :=
  data.take (i + r.signature.length) ++ r.off ++
    data.drop (i + r.signature.length + r.stock.length)

/-- One rule's scan over the buffer: the mutated buffer and the patch
offset, if the rule fired. -/
def applyRule (data : List Nat) (r : Rule) : List Nat × Option Nat :=
  match findPatchIndex data r with
  | none => (data, none)
  | some i => (patchAt data r i, some i)

/-- The enabled check `self.options.get(pattern_name.lower(), False)` at
line 94 of the source. -/
def ruleEnabled (opts : List (String × Bool)) (r : Rule) : Bool :=
  (List.lookup (pyLower r.name) opts).getD false

/-- The body of the outer `for pattern_name, pattern in
self.patterns.items()` loop for one rule: skip if disabled, otherwise
scan, patch and append one change record on success. -/
def applyStep (opts : List (String × Bool))
    (acc : List Nat × List (String × Nat)) (r : Rule) :
    List Nat × List (String × Nat) :=
  if ruleEnabled opts r then
    match findPatchIndex acc.1 r with
    | none => acc
    | some i => (patchAt acc.1 r i, acc.2 ++ [(r.name, i)])
  else acc

/-- `apply_modifications(data)`: fold the per-rule step over the rules
in their fixed definition order, starting from the given buffer and an
empty change list. -/
def applyModifications (opts : List (String × Bool)) (rules : List Rule)
    (data : List Nat) : List Nat × List (String × Nat) :=
  rules.foldl (applyStep opts) (data, [])

/-- The `'DPF'` entry of `self.patterns`. -/
def dpfRule : Rule :=
  ⟨"DPF", [0x44, 0x50, 0x46, 0x5F], [0x01, 0x01, 0x01, 0x00, 0x00],
    [0x00, 0x00, 0x00, 0xFF, 0xFF]⟩

/-- The `'EGR'` entry of `self.patterns`. -/
def egrRule : Rule :=
  ⟨"EGR", [0x45, 0x47, 0x52, 0x56], [0x01, 0x01, 0x01, 0x00],
    [0x00, 0x00, 0x00, 0xFF]⟩

/-- The `'SCR'` entry of `self.patterns`. -/
def scrRule : Rule :=
  ⟨"SCR", [0x53, 0x43, 0x52, 0x5F], [0x01, 0x01, 0x01, 0x00, 0x00],
    [0x00, 0x00, 0x00, 0xFF, 0xFF]⟩

/-- The `'StartStop'` entry of `self.patterns`. -/
def startStopRule : Rule :=
  ⟨"StartStop", [0x53, 0x54, 0x41, 0x52, 0x54], [0x01, 0x01, 0x00],
    [0x00, 0x00, 0xFF]⟩

/-- `self.patterns`, in Python dict insertion order. -/
def patterns : List Rule := [dpfRule, egrRule, scrRule, startStopRule]

/-- The default `self.options` dict built at line 15 of the source. -/
def defaultOptions : List (String × Bool) :=
  [("dpf", true), ("egr", true), ("scr", true), ("start_stop", true)]

/-- Buffer whose first DPF signature occurrence (offset 0) is followed
by non-stock bytes while a later occurrence (offset 9) is followed by
the stock bytes. -/
def bufRetry : List Nat :=
  [0x44, 0x50, 0x46, 0x5F, 0x02, 0x01, 0x01, 0x00, 0x00,
   0x44, 0x50, 0x46, 0x5F, 0x01, 0x01, 0x01, 0x00, 0x00]

/-- Buffer holding two complete DPF matches (offsets 0 and 9). -/
def bufTwice : List Nat :=
  [0x44, 0x50, 0x46, 0x5F, 0x01, 0x01, 0x01, 0x00, 0x00,
   0x44, 0x50, 0x46, 0x5F, 0x01, 0x01, 0x01, 0x00, 0x00]

/-- Buffer holding exactly one complete DPF match. -/
def bufOnce : List Nat :=
  [0x44, 0x50, 0x46, 0x5F, 0x01, 0x01, 0x01, 0x00, 0x00]

/-- Buffer holding one complete DPF match, used for the enabled-key
case experiments. -/
def bufCase : List Nat :=
  [0x44, 0x50, 0x46, 0x5F, 0x01, 0x01, 0x01, 0x00, 0x00]

/-- The DPF demo buffer of the specification: the DPF signature, the
stock bytes, then ten unrelated bytes. -/
def bufDemo : List Nat :=
  [0x44, 0x50, 0x46, 0x5F, 0x01, 0x01, 0x01, 0x00, 0x00,
   0xAA, 0xAA, 0xAA, 0xAA, 0xAA, 0xAA, 0xAA, 0xAA, 0xAA, 0xAA]

/-- Buffer holding one complete DPF match, used to exercise a disabled
rule. -/
def bufSkip : List Nat :=
  [0x44, 0x50, 0x46, 0x5F, 0x01, 0x01, 0x01, 0x00, 0x00]

/-- Scanning finds nothing exactly when no index in the window
satisfies the predicate. -/
theorem scanLoop_eq_none (p : Nat → Bool) :
    ∀ n i, scanLoop p n i = none ↔ ∀ k, k < n → p (i + k) = false := by
  intro n
  induction n with
  | zero =>
    intro i
    simp [scanLoop]
  | succ m ih =>
    intro i
    constructor
    · intro h k hk
      cases hp : p i with
      | true => simp [scanLoop, hp] at h
      | false =>
        have h2 : scanLoop p m (i + 1) = none := by simpa [scanLoop, hp] using h
        cases k with
        | zero => simpa using hp
        | succ k0 =>
          have := (ih (i + 1)).mp h2 k0 (Nat.lt_of_succ_lt_succ hk)
          have harith : i + 1 + k0 = i + (k0 + 1) := by omega
          rwa [harith] at this
    · intro h
      have hp : p i = false := by simpa using h 0 (Nat.succ_pos m)
      have hrest : scanLoop p m (i + 1) = none := by
        refine (ih (i + 1)).mpr ?_
        intro k hk
        have := h (k + 1) (Nat.succ_lt_succ hk)
        have harith : i + (k + 1) = i + 1 + k := by omega
        rwa [harith] at this
      simp [scanLoop, hp, hrest]

/-- A successful scan returns the first index in the window satisfying
the predicate. -/
theorem scanLoop_eq_some (p : Nat → Bool) :
    ∀ n i j, scanLoop p n i = some j →
      p j = true ∧ i ≤ j ∧ j < i + n ∧
        ∀ k, i ≤ k → k < j → p k = false := by
  intro n
  induction n with
  | zero =>
    intro i j h
    simp [scanLoop] at h
  | succ m ih =>
    intro i j h
    cases hp : p i with
    | true =>
      have hij : i = j := by simpa [scanLoop, hp] using h
      subst hij
      exact ⟨hp, Nat.le_refl i, by omega,
        fun k hk1 hk2 => absurd (Nat.lt_of_le_of_lt hk1 hk2) (Nat.lt_irrefl i)⟩
    | false =>
      have h2 : scanLoop p m (i + 1) = some j := by simpa [scanLoop, hp] using h
      obtain ⟨hpj, hij, hlt, hmin⟩ := ih (i + 1) j h2
      refine ⟨hpj, by omega, by omega, ?_⟩
      intro k hk1 hk2
      rcases Nat.lt_or_ge k (i + 1) with hks | hks
      · have hk : k = i := by omega
        rw [hk]
        exact hp
      · exact hmin k hks hk2

/-- If the first index in the window satisfying the predicate exists,
the scan returns it. -/
theorem scanLoop_some_of (p : Nat → Bool) :
    ∀ n i j, i ≤ j → j < i + n → p j = true →
      (∀ k, i ≤ k → k < j → p k = false) → scanLoop p n i = some j := by
  intro n
  induction n with
  | zero =>
    intro i j h1 h2 _ _
    exact absurd h2 (by omega)
  | succ m ih =>
    intro i j h1 h2 h3 h4
    rcases Nat.eq_or_lt_of_le h1 with heq | hlt
    · rw [← heq] at h3 ⊢
      simp [scanLoop, h3]
    · have hpi : p i = false := h4 i (Nat.le_refl i) hlt
      have hrest : scanLoop p m (i + 1) = some j :=
        ih (i + 1) j (by omega) (by omega) h3 (fun k hk1 hk2 => h4 k (by omega) hk2)
      simp [scanLoop, hpi, hrest]

/-- The per-rule scan fails exactly when no offset in the scanned
window has both the signature and the stock slice matching. -/
theorem findPatchIndex_eq_none_iff (data : List Nat) (r : Rule) :
    findPatchIndex data r = none ↔
      ∀ k, k < data.length - r.signature.length →
        bothMatch data r k = false := by
  unfold findPatchIndex
  constructor
  · intro h k hk
    have := (scanLoop_eq_none (bothMatch data r) _ 0).mp h k hk
    simpa using this
  · intro h
    refine (scanLoop_eq_none (bothMatch data r) _ 0).mpr ?_
    intro k hk
    simpa using h k hk

/-- A successful per-rule scan returns the first offset in the scanned
window at which both the signature and the stock slice match. -/
theorem findPatchIndex_some_spec {data : List Nat} {r : Rule} {j : Nat}
    (h : findPatchIndex data r = some j) :
    bothMatch data r j = true ∧
      j < data.length - r.signature.length ∧
      ∀ k, k < j → bothMatch data r k = false := by
  obtain ⟨h1, _, h3, h4⟩ := scanLoop_eq_some (bothMatch data r) _ 0 j h
  exact ⟨h1, by omega, fun k hk => h4 k (Nat.zero_le k) hk⟩

/-- A successful scan stays inside the buffer: the patched window ends
at or before the end of the buffer, and the prefix kept by the patch
has its nominal length. -/
theorem patch_bounds {data : List Nat} {r : Rule} {j : Nat}
    (h : findPatchIndex data r = some j) :
    j + r.signature.length + r.stock.length ≤ data.length ∧
      (data.take (j + r.signature.length)).length =
        j + r.signature.length := by
  obtain ⟨hb, hj, _⟩ := findPatchIndex_some_spec h
  have hjs : j + r.signature.length < data.length := by omega
  have hst : stockMatchAt data r j = true := by
    unfold bothMatch at hb
    exact (Bool.and_eq_true _ _).mp hb |>.2
  unfold stockMatchAt pySlice at hst
  have heq := eq_of_beq hst
  have hlen := congrArg List.length heq
  rw [List.length_take, List.length_drop] at hlen
  have hmin : min r.stock.length
      (data.length - (j + r.signature.length)) = r.stock.length := by
    simpa [Nat.add_sub_cancel_left] using hlen
  have hle := min_eq_left_iff.mp hmin
  refine ⟨by omega, ?_⟩
  rw [List.length_take]
  exact min_eq_left (by omega)

/-- Slicing out the middle component of a three-part concatenation. -/
theorem slice_middle (pre mid post : List Nat) :
    pySlice (pre ++ mid ++ post) pre.length (pre.length + mid.length) =
      mid := by
  unfold pySlice
  rw [Nat.add_sub_cancel_left, List.append_assoc, List.drop_left,
    List.take_left]

/-- Patching never changes the buffer length when the replacement has
the length of the stock bytes. -/
theorem patchAt_length {data : List Nat} {r : Rule} {i : Nat}
    (hf : findPatchIndex data r = some i)
    (hlen : r.off.length = r.stock.length) :
    (patchAt data r i).length = data.length := by
  obtain ⟨hb, htake⟩ := patch_bounds hf
  unfold patchAt
  rw [List.length_append, List.length_append, htake, List.length_drop]
  omega

/-- If no enabled rule finds a patch offset in the buffer, the fold
leaves buffer and records untouched. -/
theorem foldl_noMatch (opts : List (String × Bool)) :
    ∀ (rules : List Rule) (d : List Nat) (recs : List (String × Nat)),
      (∀ r ∈ rules, ruleEnabled opts r = true →
        findPatchIndex d r = none) →
      List.foldl (applyStep opts) (d, recs) rules = (d, recs) := by
  intro rules
  induction rules with
  | nil =>
    intro d recs _
    rfl
  | cons r rs ih =>
    intro d recs h
    have hstep : applyStep opts (d, recs) r = (d, recs) := by
      cases he : ruleEnabled opts r with
      | false => simp [applyStep, he]
      | true =>
        have hf := h r (List.mem_cons_self r rs) he
        simp [applyStep, he, hf]
    rw [List.foldl_cons, hstep]
    exact ih d recs (fun r2 hr2 he2 => h r2 (List.mem_cons_of_mem r hr2) he2)

/-- A rule whose enabled lookup is false contributes nothing: deleting
it from the ruleset does not change the result of the engine. -/
theorem skipDisabled (opts : List (String × Bool)) (pre post : List Rule)
    (r : Rule) (data : List Nat) (hd : ruleEnabled opts r = false) :
    applyModifications opts (pre ++ r :: post) data =
      applyModifications opts (pre ++ post) data := by
  unfold applyModifications
  rw [List.foldl_append, List.foldl_append, List.foldl_cons]
  have hstep : applyStep opts (List.foldl (applyStep opts) (data, []) pre) r
      = List.foldl (applyStep opts) (data, []) pre := by
    simp [applyStep, hd]
  rw [hstep]

/-- The engine depends on the enabled mapping only through the per-rule
enabled lookups. -/
theorem foldl_congrOpts (o1 o2 : List (String × Bool)) :
    ∀ (rules : List Rule) (acc : List Nat × List (String × Nat)),
      (∀ r ∈ rules, ruleEnabled o1 r = ruleEnabled o2 r) →
      List.foldl (applyStep o1) acc rules =
        List.foldl (applyStep o2) acc rules := by
  intro rules
  induction rules with
  | nil =>
    intro acc _
    rfl
  | cons r rs ih =>
    intro acc h
    rw [List.foldl_cons, List.foldl_cons]
    have hstep : applyStep o1 acc r = applyStep o2 acc r := by
      unfold applyStep
      rw [h r (List.mem_cons_self r rs)]
    rw [hstep]
    exact ih _ (fun r2 hr2 => h r2 (List.mem_cons_of_mem r hr2))

/-- The fold appends to the record list a tail whose rule names form a
sublist of the names of the rules it folded over. -/
theorem foldl_records (opts : List (String × Bool)) :
    ∀ (rules : List Rule) (d : List Nat) (recs : List (String × Nat)),
      ∃ tail, (List.foldl (applyStep opts) (d, recs) rules).2 =
          recs ++ tail ∧
        List.Sublist (tail.map Prod.fst) (rules.map Rule.name) := by
  intro rules
  induction rules with
  | nil =>
    intro d recs
    exact ⟨[], by simp, List.Sublist.refl _⟩
  | cons r rs ih =>
    intro d recs
    rw [List.foldl_cons]
    cases he : ruleEnabled opts r with
    | false =>
      have hstep : applyStep opts (d, recs) r = (d, recs) := by
        simp [applyStep, he]
      rw [hstep]
      obtain ⟨t, ht, hs⟩ := ih d recs
      exact ⟨t, ht, hs.cons _⟩
    | true =>
      cases hf : findPatchIndex d r with
      | none =>
        have hstep : applyStep opts (d, recs) r = (d, recs) := by
          simp [applyStep, he, hf]
        rw [hstep]
        obtain ⟨t, ht, hs⟩ := ih d recs
        exact ⟨t, ht, hs.cons _⟩
      | some i =>
        have hstep : applyStep opts (d, recs) r =
            (patchAt d r i, recs ++ [(r.name, i)]) := by
          simp [applyStep, he, hf]
        rw [hstep]
        obtain ⟨t, ht, hs⟩ := ih (patchAt d r i) (recs ++ [(r.name, i)])
        refine ⟨(r.name, i) :: t, ?_, ?_⟩
        · rw [ht, List.append_assoc]
          rfl
        · simp only [List.map_cons]
          exact hs.cons₂ _

/-- The fold preserves the buffer length when every rule replaces the
stock bytes by a same-length sequence. -/
theorem foldl_length (opts : List (String × Bool)) :
    ∀ (rules : List Rule) (d : List Nat) (recs : List (String × Nat)),
      (∀ r ∈ rules, r.off.length = r.stock.length) →
      ((List.foldl (applyStep opts) (d, recs) rules).1).length =
        d.length := by
  intro rules
  induction rules with
  | nil =>
    intro d recs _
    rfl
  | cons r rs ih =>
    intro d recs h
    rw [List.foldl_cons]
    cases he : ruleEnabled opts r with
    | false =>
      have hstep : applyStep opts (d, recs) r = (d, recs) := by
        simp [applyStep, he]
      rw [hstep]
      exact ih d recs (fun r2 hr2 => h r2 (List.mem_cons_of_mem r hr2))
    | true =>
      cases hf : findPatchIndex d r with
      | none =>
        have hstep : applyStep opts (d, recs) r = (d, recs) := by
          simp [applyStep, he, hf]
        rw [hstep]
        exact ih d recs (fun r2 hr2 => h r2 (List.mem_cons_of_mem r hr2))
      | some i =>
        have hstep : applyStep opts (d, recs) r =
            (patchAt d r i, recs ++ [(r.name, i)]) := by
          simp [applyStep, he, hf]
        rw [hstep]
        have hrest := ih (patchAt d r i) (recs ++ [(r.name, i)])
          (fun r2 hr2 => h r2 (List.mem_cons_of_mem r hr2))
        rw [hrest]
        exact patchAt_length hf (h r (List.mem_cons_self r rs))

/-- C1 counterexample: with only dpf enabled, the first DPF signature
occurrence in `bufRetry` (offset 0) has mismatching stock bytes, yet
the engine still patches the later occurrence at offset 9 and emits a
change record — the scan does retry past a failed stock check. -/
theorem c1_counterexample :
    sigMatchAt bufRetry dpfRule 0 = true ∧
    stockMatchAt bufRetry dpfRule 0 = false ∧
    applyModifications [("dpf", true)] patterns bufRetry =
      ([0x44, 0x50, 0x46, 0x5F, 0x02, 0x01, 0x01, 0x00, 0x00,
        0x44, 0x50, 0x46, 0x5F, 0x00, 0x00, 0x00, 0xFF, 0xFF],
       [("DPF", 9)]) := by
  decide

/-- C1 (amended): the engine commits to the first offset at which both
the signature and the stock bytes match; a stock mismatch at an earlier
signature occurrence does not abandon the rule, the scan continues and
the rule patches at the first offset where both slices match. -/
theorem c1_first_both_match_patches (data : List Nat) (r : Rule) (j : Nat)
    (h1 : sigMatchAt data r j = true)
    (h2 : stockMatchAt data r j = true)
    (h3 : ∀ k, k < j → bothMatch data r k = false)
    (h4 : j < data.length - r.signature.length) :
    applyRule data r = (patchAt data r j, some j) := by
  have hb : bothMatch data r j = true := by
    unfold bothMatch
    rw [h1, h2]
    rfl
  have hfind : findPatchIndex data r = some j :=
    scanLoop_some_of (bothMatch data r) _ 0 j (Nat.zero_le j) (by omega) hb
      (fun k _ hk2 => h3 k hk2)
  unfold applyRule
  rw [hfind]

/-- C1 witness: in `bufRetry` the first offset with both slices
matching is 9, and the rule patches there. -/
theorem c1_witness :
    (sigMatchAt bufRetry dpfRule 9 = true ∧
     stockMatchAt bufRetry dpfRule 9 = true ∧
     (∀ k, k < 9 → bothMatch bufRetry dpfRule k = false) ∧
     9 < bufRetry.length - dpfRule.signature.length) ∧
    applyRule bufRetry dpfRule = (patchAt bufRetry dpfRule 9, some 9) :=
  ⟨⟨by decide, by decide, by decide, by decide⟩,
   c1_first_both_match_patches bufRetry dpfRule 9 (by decide) (by decide)
     (by decide) (by decide)⟩

/-- C2 counterexample: `bufTwice` holds two complete DPF matches; the
first `apply` patches only the first one, so a second `apply` on its
output patches the surviving match at offset 9 — the second call
mutates the buffer and returns a nonempty record list. -/
theorem c2_counterexample :
    applyModifications defaultOptions patterns
        ((applyModifications defaultOptions patterns bufTwice).1) =
      ([0x44, 0x50, 0x46, 0x5F, 0x00, 0x00, 0x00, 0xFF, 0xFF,
        0x44, 0x50, 0x46, 0x5F, 0x00, 0x00, 0x00, 0xFF, 0xFF],
       [("DPF", 9)]) ∧
    (applyModifications defaultOptions patterns bufTwice).1 ≠
      [0x44, 0x50, 0x46, 0x5F, 0x00, 0x00, 0x00, 0xFF, 0xFF,
       0x44, 0x50, 0x46, 0x5F, 0x00, 0x00, 0x00, 0xFF, 0xFF] := by
  decide

/-- C2 (amended): a second `apply` with the same enabled rules yields an
empty record sequence and an unchanged buffer exactly in case the
buffer produced by the first `apply` no longer contains any match for
an enabled rule; in general a second call may patch an occurrence the
first call left intact. -/
theorem c2_second_apply_noop (opts : List (String × Bool))
    (rules : List Rule) (data : List Nat)
    (h : ∀ r ∈ rules, ruleEnabled opts r = true →
      findPatchIndex (applyModifications opts rules data).1 r = none) :
    applyModifications opts rules
        ((applyModifications opts rules data).1) =
      ((applyModifications opts rules data).1, []) := by
  unfold applyModifications
  exact foldl_noMatch opts rules _ [] h

/-- C2 witness: after patching the single match of `bufOnce`, no
enabled rule matches the output, so the second `apply` is a no-op. -/
theorem c2_witness :
    (∀ r ∈ patterns, ruleEnabled defaultOptions r = true →
      findPatchIndex
        (applyModifications defaultOptions patterns bufOnce).1 r = none) ∧
    applyModifications defaultOptions patterns
        ((applyModifications defaultOptions patterns bufOnce).1) =
      ((applyModifications defaultOptions patterns bufOnce).1, []) :=
  ⟨by decide,
   c2_second_apply_noop defaultOptions patterns bufOnce (by decide)⟩

/-- C3 counterexample: `bufCase` holds a complete DPF match, yet
enabling under the key "DPF" leaves the buffer untouched while
enabling under "dpf" patches it — the two keys are not equivalent. -/
theorem c3_counterexample :
    applyModifications [("DPF", true)] patterns bufCase = (bufCase, []) ∧
    applyModifications [("dpf", true)] patterns bufCase =
      ([0x44, 0x50, 0x46, 0x5F, 0x00, 0x00, 0x00, 0xFF, 0xFF],
       [("DPF", 0)]) := by
  decide

/-- C3 (amended): whether a rule is evaluated depends only on the value
the enabled mapping assigns to the exact lowercase form of the rule
name; two mappings agreeing on those lookups produce identical results,
and keys in any other spelling are ignored. -/
theorem c3_lookup_lowercase_only (o1 o2 : List (String × Bool))
    (rules : List Rule) (data : List Nat)
    (h : ∀ r ∈ rules, ruleEnabled o1 r = ruleEnabled o2 r) :
    applyModifications o1 rules data = applyModifications o2 rules data := by
  unfold applyModifications
  exact foldl_congrOpts o1 o2 rules (data, []) h

/-- C3 witness: adding the uppercase key "EGR" changes no lowercase
lookup, so the engine output is unchanged by it. -/
theorem c3_witness :
    (∀ r ∈ patterns, ruleEnabled [("dpf", true), ("EGR", true)] r =
      ruleEnabled [("dpf", true)] r) ∧
    applyModifications [("dpf", true), ("EGR", true)] patterns bufCase =
      applyModifications [("dpf", true)] patterns bufCase :=
  ⟨by decide,
   c3_lookup_lowercase_only [("dpf", true), ("EGR", true)] [("dpf", true)]
     patterns bufCase (by decide)⟩

/-- C4: when an enabled rule finds its first full match at offset i,
the engine overwrites exactly the stock window with the off bytes
(prefix and suffix of the buffer kept verbatim), emits the record
(rule name, i), and the patched window reads back as the off bytes. -/
theorem c4_match_patches (opts : List (String × Bool)) (r : Rule)
    (data : List Nat) (i : Nat)
    (he : ruleEnabled opts r = true)
    (hi : findPatchIndex data r = some i) :
    applyModifications opts [r] data =
      (patchAt data r i, [(r.name, i)]) ∧
    pySlice (patchAt data r i) (i + r.signature.length)
      (i + r.signature.length + r.off.length) = r.off := by
  constructor
  · simp [applyModifications, applyStep, he, hi]
  · obtain ⟨hb, htake⟩ := patch_bounds hi
    have hmid := slice_middle (data.take (i + r.signature.length)) r.off
      (data.drop (i + r.signature.length + r.stock.length))
    rw [htake] at hmid
    exact hmid

/-- C4 witness: the DPF rule on the specification demo buffer patches
at offset 0 and the patched window reads back as the off bytes. -/
theorem c4_witness :
    (ruleEnabled defaultOptions dpfRule = true ∧
     findPatchIndex bufDemo dpfRule = some 0) ∧
    (applyModifications defaultOptions [dpfRule] bufDemo =
      (patchAt bufDemo dpfRule 0, [(dpfRule.name, 0)]) ∧
    pySlice (patchAt bufDemo dpfRule 0) (0 + dpfRule.signature.length)
      (0 + dpfRule.signature.length + dpfRule.off.length) = dpfRule.off) :=
  ⟨⟨by decide, by decide⟩,
   c4_match_patches defaultOptions dpfRule bufDemo 0 (by decide) (by decide)⟩

/-- C5: the engine is a total function, and on a buffer shorter than
every enabled rule signature it returns the buffer unchanged with an
empty record sequence. -/
theorem c5_short_buffer (opts : List (String × Bool)) (rules : List Rule)
    (data : List Nat)
    (h : ∀ r ∈ rules, ruleEnabled opts r = true →
      data.length < r.signature.length) :
    applyModifications opts rules data = (data, []) := by
  unfold applyModifications
  apply foldl_noMatch
  intro r hr he
  have hlt := h r hr he
  unfold findPatchIndex
  have hz : data.length - r.signature.length = 0 := by omega
  rw [hz]
  rfl

/-- C5 witness: a two-byte buffer is shorter than every signature of
the catalog, so the engine returns it unchanged with no records. -/
theorem c5_witness :
    (∀ r ∈ patterns, ruleEnabled defaultOptions r = true →
      ([0x44, 0x50] : List Nat).length < r.signature.length) ∧
    applyModifications defaultOptions patterns [0x44, 0x50] =
      ([0x44, 0x50], []) :=
  ⟨by decide,
   c5_short_buffer defaultOptions patterns [0x44, 0x50] (by decide)⟩

/-- C6: a rule whose enabled lookup is false contributes nothing:
deleting it from the ruleset leaves the mutated buffer and the record
sequence of the engine unchanged, whatever the buffer contains. -/
theorem c6_disabled_rule_inert (opts : List (String × Bool))
    (pre post : List Rule) (r : Rule) (data : List Nat)
    (hd : ruleEnabled opts r = false) :
    applyModifications opts (pre ++ r :: post) data =
      applyModifications opts (pre ++ post) data :=
  skipDisabled opts pre post r data hd

/-- C6 witness: with dpf mapped to false, the DPF rule is inert even on
a buffer holding a complete DPF match. -/
theorem c6_witness :
    (ruleEnabled [("dpf", false)] dpfRule = false) ∧
    applyModifications [("dpf", false)] ([] ++ dpfRule :: []) bufSkip =
      applyModifications [("dpf", false)] ([] ++ []) bufSkip :=
  ⟨by decide,
   c6_disabled_rule_inert [("dpf", false)] [] [] dpfRule bufSkip (by decide)⟩

/-- C7: the catalog holds exactly the four canonical rules DPF, EGR,
SCR, StartStop in that order, with the byte sequences of the
specification table. -/
theorem c7_catalog :
    patterns.map Rule.name = ["DPF", "EGR", "SCR", "StartStop"] ∧
    patterns.map Rule.signature =
      [[0x44, 0x50, 0x46, 0x5F], [0x45, 0x47, 0x52, 0x56],
       [0x53, 0x43, 0x52, 0x5F], [0x53, 0x54, 0x41, 0x52, 0x54]] ∧
    patterns.map Rule.stock =
      [[0x01, 0x01, 0x01, 0x00, 0x00], [0x01, 0x01, 0x01, 0x00],
       [0x01, 0x01, 0x01, 0x00, 0x00], [0x01, 0x01, 0x00]] ∧
    patterns.map Rule.off =
      [[0x00, 0x00, 0x00, 0xFF, 0xFF], [0x00, 0x00, 0x00, 0xFF],
       [0x00, 0x00, 0x00, 0xFF, 0xFF], [0x00, 0x00, 0xFF]] :=
  ⟨rfl, rfl, rfl, rfl⟩

/-- C8: every catalog rule replaces the stock bytes by a same-length
sequence, and consequently the engine never changes the buffer
length. -/
theorem c8_length_preserved :
    (patterns.all fun r => r.off.length == r.stock.length) = true ∧
    ∀ (opts : List (String × Bool)) (data : List Nat),
      ((applyModifications opts patterns data).1).length = data.length := by
  refine ⟨by decide, ?_⟩
  intro opts data
  unfold applyModifications
  exact foldl_length opts patterns data [] (by decide)

/-- C9: the rule names of the record sequence form a sublist of the
catalog names in rule-evaluation order, each rule contributes at most
as many records as it occurs in the ruleset, and over the catalog the
record names are pairwise distinct (at most one record per rule). -/
theorem c9_records_ordered (opts : List (String × Bool))
    (rules : List Rule) (data : List Nat) :
    List.Sublist (((applyModifications opts rules data).2).map Prod.fst)
      (rules.map Rule.name) ∧
    (∀ n : String,
      (((applyModifications opts rules data).2).map Prod.fst).count n ≤
        (rules.map Rule.name).count n) ∧
    (((applyModifications opts patterns data).2).map Prod.fst).Nodup := by
  have h1 : List.Sublist
      (((applyModifications opts rules data).2).map Prod.fst)
      (rules.map Rule.name) := by
    unfold applyModifications
    obtain ⟨t, ht, hs⟩ := foldl_records opts rules data []
    rw [ht, List.nil_append]
    exact hs
  have h2 : List.Sublist
      (((applyModifications opts patterns data).2).map Prod.fst)
      (patterns.map Rule.name) := by
    unfold applyModifications
    obtain ⟨t, ht, hs⟩ := foldl_records opts patterns data []
    rw [ht, List.nil_append]
    exact hs
  have hnd : (patterns.map Rule.name).Nodup := by decide
  exact ⟨h1, fun n => h1.count_le n, hnd.sublist h2⟩

/-- C10: under the default options the StartStop rule is looked up as
"startstop", which the default mapping does not contain; the rule is
never evaluated, removing it changes nothing, and no record ever
carries the name StartStop. -/
theorem c10_startstop_never_enabled (data : List Nat) :
    applyModifications defaultOptions patterns data =
      applyModifications defaultOptions [dpfRule, egrRule, scrRule] data ∧
    (((applyModifications defaultOptions patterns data).2).map
      Prod.fst).count "StartStop" = 0 := by
  have hd : ruleEnabled defaultOptions startStopRule = false := by decide
  have heq : applyModifications defaultOptions patterns data =
      applyModifications defaultOptions [dpfRule, egrRule, scrRule] data :=
    skipDisabled defaultOptions [dpfRule, egrRule, scrRule] [] startStopRule
      data hd
  refine ⟨heq, ?_⟩
  rw [heq]
  unfold applyModifications
  obtain ⟨t, ht, hs⟩ := foldl_records defaultOptions
    [dpfRule, egrRule, scrRule] data []
  rw [ht, List.nil_append]
  have hcount := hs.count_le "StartStop"
  have hz : (([dpfRule, egrRule, scrRule].map Rule.name).count
      "StartStop") = 0 := by decide
  omega
